import Mathlib

/-!
Shallow embedding of the hotel-management-system ingestion pipeline
(victoragudo/hotel-management-system) together with proofs about the
claims of its specification.

The embedding follows the Go sources:
* `fetcher-service/internal/worker/adapter/cupid_api_adapter.go`
  (upstream HTTP client: circuit breaker, 404 handling, retry loop,
  retry-delay schedule),
* the dispatcher (`processBatch` / `runOnce`) and the keyset-paged
  queries of `pkg/api-models/api_models.go`,
* the worker message processor
  (`fetcher-service/cmd/worker/message_processor.go`),
* the GORM repository (`gorm_repository.go`) and the entity hooks of
  `pkg/entities/hotel.go` and the `HotelTranslation` entity.

Effectful collaborators (database, Redis, RabbitMQ, the upstream API,
wall clock) are passed in explicitly as values or oracle functions, so
every definition is executable and every concrete run can be evaluated
by the kernel.
-/

namespace HotelSys

/-! ### Upstream HTTP client — cupid_api_adapter.go -/

/-- Outcome of one upstream HTTP attempt as observed by `doHTTPRequest`:
either a response with a status code and body, or a transport-level
failure (`c.client.Do` returned an error). -/
inductive UpstreamOutcome where
  | status (code : Nat) (body : String)
  | network (msg : String)
deriving Repr, DecidableEq

/-- Errors produced by `doHTTPRequest`.  The Go code encodes them as the
strings `"HTTP error %d: %s"` (status ≥ 400) and
`"HTTP request failed: %s"` (transport error); the constructors carry
the same data, and `apiErrString` reproduces the exact strings. -/
inductive ApiErr where
  | http (code : Nat) (body : String)
  | network (msg : String)
deriving Repr, DecidableEq

/-- The Go error string for an `ApiErr`, exactly as `doHTTPRequest`
formats it. -/
def apiErrString : ApiErr → String
  | .http code body => "HTTP error " ++ toString code ++ ": " ++ body
  | .network msg => "HTTP request failed: " ++ msg

/-- `doHTTPRequest`: a status code ≥ 400 becomes the error
`"HTTP error %d: %s"`; a transport failure becomes
`"HTTP request failed: %s"`.  JSON decoding of a 2xx body is modeled as
succeeding (decode failures are a different error family that no claim
here touches). -/
def doHTTPRequest : UpstreamOutcome → Except ApiErr Unit
  | .status code body => if 400 ≤ code then .error (.http code body) else .ok ()
  | .network msg => .error (.network msg)

/-- `is404Error`: the Go function parses the error string — it takes the
text before the first `:`, strips the leading `"HTTP error "` and
compares the parsed number with 404.  On the error values produced by
`doHTTPRequest` (the only values this program feeds it) that computation
returns exactly: HTTP error with code 404. -/
def is404Error : Option ApiErr → Bool
  | none => false
  | some (.http code _) => code == 404
  | some (.network _) => false

/-- The retry configuration (`retryConfig` in the adapter).  Delays are
rationals measured in seconds; the Go code computes them in `float64`
nanoseconds, which is exact for the integral values involved here. -/
structure RetryConfig where
  maxRetries : Nat
  baseDelay : ℚ
  maxDelay : ℚ
  multiplier : ℚ
  jitter : Bool
  retryableCodes : List Nat
deriving Repr, DecidableEq

/-- The retry configuration `NewCupidAPIAdapter` builds from the worker
config: `BaseDelay = RetryInterval = 1s`, `MaxDelay = 30s`,
`Multiplier = 2.0`, `Jitter = true`,
`RetryableCode = [429, 500, 502, 503, 504]`. -/
def cupidRetryConfig (maxRetries : Nat) : RetryConfig :=
  { maxRetries := maxRetries
    baseDelay := 1
    maxDelay := 30
    multiplier := 2
    jitter := true
    retryableCodes := [429, 500, 502, 503, 504] }

/-- `isRetryableError`: same string parsing as `is404Error`; for an HTTP
error it refuses 404, then accepts exactly the configured retryable
codes; every non-HTTP error (network, timeout, rate-limiter) is
retryable. -/
def isRetryableError (cfg : RetryConfig) : Option ApiErr → Bool
  | none => false
  | some (.http code _) =>
      if code == 404 then false else cfg.retryableCodes.contains code
  | some (.network _) => true

/-- The consecutive-failures counter of the `gobreaker` circuit breaker
(`Counts.ConsecutiveFailures`).  In the closed state `Execute` runs the
wrapped function and records: error ⇒ `onFailure`
(`ConsecutiveFailures+1`), nil error ⇒ `onSuccess`
(`ConsecutiveFailures := 0`). -/
structure BreakerCounts where
  consecutiveFailures : Nat
deriving Repr, DecidableEq

/-- `performRequest` (closed-breaker state): waits on the rate limiter
(modeled as succeeding), then runs `doHTTPRequest` inside
`circuitBreaker.Execute`.  A 404 error is wrapped into a
`notFoundResult` and returned from the closure with a nil error, so the
breaker records a success; `performRequest` then unwraps and returns the
404 error to its caller.  Every other error is returned from the
closure as-is, so the breaker records a failure. -/
def performRequest (counts : BreakerCounts) (outcome : UpstreamOutcome) :
    BreakerCounts × Except ApiErr Unit :=
  match doHTTPRequest outcome with
  | .ok _ => (⟨0⟩, .ok ())
  | .error e =>
      if is404Error (some e) then (⟨0⟩, .error e)
      else (⟨counts.consecutiveFailures + 1⟩, .error e)

/-- The final error of `executeWithRetry`:
`"operation failed after %d retries: %w"` wrapping the last error. -/
def retryFailureMsg (cfg : RetryConfig) (e : ApiErr) : String :=
  "operation failed after " ++ toString cfg.maxRetries ++ " retries: " ++ apiErrString e

/-- The loop body of `executeWithRetry`.  `fuel` is the number of
attempts still allowed after the current one
(`MaxRetries - attempt`); `outcomes attempt` is what the upstream does
on the given attempt.  Before every attempt with index > 0 the Go code
sleeps `calculateRetryDelay attempt`; the wait does not change the
result and is not threaded here.  Returns the breaker counts, the final
result, and how many times `operation()` was invoked. -/
def executeWithRetryAux (cfg : RetryConfig) (outcomes : Nat → UpstreamOutcome) :
    Nat → Nat → BreakerCounts → BreakerCounts × Except String Unit × Nat
  | 0, attempt, counts =>
      match performRequest counts (outcomes attempt) with
      | (counts1, .ok _) => (counts1, .ok (), 1)
      | (counts1, .error e) => (counts1, .error (retryFailureMsg cfg e), 1)
  | fuel + 1, attempt, counts =>
      match performRequest counts (outcomes attempt) with
      | (counts1, .ok _) => (counts1, .ok (), 1)
      | (counts1, .error e) =>
          if isRetryableError cfg (some e) then
            match executeWithRetryAux cfg outcomes fuel (attempt + 1) counts1 with
            | (counts2, r2, n2) => (counts2, r2, n2 + 1)
          else (counts1, .error (retryFailureMsg cfg e), 1)

/-- `executeWithRetry`: `for attempt := 0; attempt <= MaxRetries;
attempt++`, stopping early on success or on a non-retryable error. -/
def executeWithRetry (cfg : RetryConfig) (outcomes : Nat → UpstreamOutcome)
    (counts : BreakerCounts) : BreakerCounts × Except String Unit × Nat :=
  executeWithRetryAux cfg outcomes cfg.maxRetries 0 counts

/-- `calculateRetryDelay` before the cap and jitter:
`float64(BaseDelay) * float64(attempt) * Multiplier`. -/
def retryDelayRaw (cfg : RetryConfig) (attempt : Nat) : ℚ :=
  cfg.baseDelay * attempt * cfg.multiplier

/-- `calculateRetryDelay` after the cap:
`if delay > MaxDelay { delay = MaxDelay }`. -/
def retryDelayCapped (cfg : RetryConfig) (attempt : Nat) : ℚ :=
  if cfg.maxDelay < retryDelayRaw cfg attempt then cfg.maxDelay
  else retryDelayRaw cfg attempt

/-- Full `calculateRetryDelay`: the capped delay plus, when jitter is
enabled, `delay * 0.1 * (2 * (now.UnixNano() % 1000) / 1000 - 1)` — a
deviation of at most ±10% driven by the wall clock, passed in here as
`nowUnixNano`. -/
def calculateRetryDelay (cfg : RetryConfig) (attempt : Nat) (nowUnixNano : ℤ) : ℚ :=
  let d := retryDelayCapped cfg attempt
  if cfg.jitter then
    d + d * (1 / 10) * (2 * ((nowUnixNano % 1000 : ℤ) : ℚ) / 1000 - 1)
  else d

/-! ### Dispatcher — orchestrator `processBatch` / `runOnce` and the
keyset-paged queries of `pkg/api-models/api_models.go` -/

/-- One row of the `hotels` / `reviews` / `translations` tables as seen
by the dispatcher queries: primary key `id`, the external `hotel_id`,
and `next_update_at` (modeled as an integer timestamp). -/
structure SourceRow where
  id : String
  hotelId : Int
  nextUpdateAt : Int
deriving Repr, DecidableEq

/-- The WHERE clause shared by `QueryHotelIDsByID`,
`QueryReviewIDsByID` and `QueryTranslationIDsByID`:
`next_update_at < NOW() AND hotel_id > 0`. -/
def eligibleRow (now : Int) (r : SourceRow) : Bool :=
  decide (r.nextUpdateAt < now) && decide (0 < r.hotelId)

/-- The `ORDER BY hotel_id ASC` relation. -/
def rowLeByHotelId (a b : SourceRow) : Prop := a.hotelId ≤ b.hotelId

instance : DecidableRel rowLeByHotelId :=
  fun a b => inferInstanceAs (Decidable (a.hotelId ≤ b.hotelId))

instance : IsTotal SourceRow rowLeByHotelId :=
  ⟨fun a b => Int.le_total a.hotelId b.hotelId⟩

instance : IsTrans SourceRow rowLeByHotelId :=
  ⟨fun _ _ _ hab hbc => le_trans hab hbc⟩

/-- Strict version of `rowLeByHotelId`, used to say the rows of a table
carry pairwise-distinct `hotel_id`s in ascending order. -/
def rowLtByHotelId (a b : SourceRow) : Prop := a.hotelId < b.hotelId

instance : DecidableRel rowLtByHotelId :=
  fun a b => inferInstanceAs (Decidable (a.hotelId < b.hotelId))

/-- `QueryReviewIDsByID` (and its hotel / translation siblings): filter
by the eligibility predicate, and by `hotel_id > ?` only when
`lastHotelID > 0`; `ORDER BY hotel_id ASC` (modeled by a stable sort);
`LIMIT ?`. -/
def queryRowsByID (now : Int) (rows : List SourceRow) (lastHotelID : Int)
    (limit : Nat) : List SourceRow :=
  ((rows.filter fun r =>
      eligibleRow now r &&
        (if 0 < lastHotelID then decide (lastHotelID < r.hotelId) else true)).insertionSort
      rowLeByHotelId).take limit

/-- `processBatch`: `if batchSize <= 0 { batchSize = 1000 }`. -/
def effectiveBatchSize (batchSize : Int) : Nat :=
  if batchSize ≤ 0 then 1000 else batchSize.toNat

/-- The page loop of `processBatch` for the `update_*` kinds, returning
the trace of query results: repeatedly query with the current cursor;
if the page is empty, break (the final empty page is kept in the trace);
otherwise set the cursor to the `hotel_id` of the page's last row,
publish one job per row, and loop.  `fuel` bounds the number of
iterations; every run below is supplied enough fuel to finish. -/
def processBatchPagesAux (now : Int) (rows : List SourceRow) (limit : Nat) :
    Nat → Int → List (List SourceRow)
  | 0, _ => []
  | fuel + 1, lastHotelID =>
      let page := queryRowsByID now rows lastHotelID limit
      match page.getLast? with
      | none => [[]]
      | some lastRow => page :: processBatchPagesAux now rows limit fuel lastRow.hotelId

/-- One dispatcher run over a stable table: the trace of pages, started
at cursor 0. -/
def processBatchPages (now : Int) (rows : List SourceRow) (batchSize : Int) :
    List (List SourceRow) :=
  processBatchPagesAux now rows (effectiveBatchSize batchSize) (rows.length + 1) 0

/-- The jobs one dispatcher run publishes, identified by the `id` of
their source row (`queue.Message.ID = record.ID` for the `update_*`
kinds). -/
def processBatchJobIDs (now : Int) (rows : List SourceRow) (batchSize : Int) :
    List String :=
  (processBatchPages now rows batchSize).flatten.map SourceRow.id

/-- Message-kind constants (`pkg/constants`). -/
def messageTypeUpdateHotel : String := "update_hotel"

def messageTypeUpdateReview : String := "update_review"

def messageTypeUpdateTranslation : String := "update_translation"

def messageTypeFetchTranslation : String := "fetch_translation"

def messageTypeFetchReview : String := "fetch_review"

/-- The five pipeline message kinds. -/
def allMessageKinds : List String :=
  [messageTypeUpdateHotel, messageTypeUpdateReview, messageTypeUpdateTranslation,
    messageTypeFetchTranslation, messageTypeFetchReview]

/-- `runOnce`: processes `update_hotel`, then `fetch_translation`, then
`fetch_review`, returning early when a batch fails.  `batchOk k` says
whether the `processBatch` call for kind `k` succeeds; the result is the
list of kinds whose enumeration was actually run. -/
def runOnceKinds (batchOk : String → Bool) : List String :=
  if batchOk messageTypeUpdateHotel = false then [messageTypeUpdateHotel]
  else if batchOk messageTypeFetchTranslation = false then
    [messageTypeUpdateHotel, messageTypeFetchTranslation]
  else [messageTypeUpdateHotel, messageTypeFetchTranslation, messageTypeFetchReview]

/-! ### Worker — cmd/worker/message_processor.go -/

/-- The `data` map of a queue message; the worker reads the keys
`hotel_id` and `lang` (the Go code type-asserts them to `string`; a
present map is assumed to carry the asserted keys). -/
structure MsgData where
  hotelId : Option String
  lang : Option String
deriving Repr, DecidableEq

/-- A decoded queue message (`queueMessage`): `{id, type, data}`. -/
structure QueueMsg where
  id : String
  messageType : String
  data : Option MsgData
deriving Repr, DecidableEq

/-- What `consumeMessages` does with a delivery: `msg.Ack(false)` on
success, `msg.Nack(false, false)` on error.  `requeue = false` routes
the message to the dead-letter queue. -/
inductive Disposition where
  | ack
  | nack (multiple requeue : Bool)
deriving Repr, DecidableEq

/-- The ack/nack decision of `consumeMessages` from the result of
`processMessage`. -/
def disposition : Except String Unit → Disposition
  | .ok _ => .ack
  | .error _ => .nack false false

/-- The lock step of `processMessage` (after decoding): if
`redisLock.Acquire` itself errs, return the error; if the lock was not
acquired, log and return nil (someone else owns it — treated as
success); otherwise run the per-kind handler (whose result is passed in
as `handlerResult`) and release the lock afterwards. -/
def processMessageWithLock (lockResult : Except String Bool)
    (handlerResult : Except String Unit) : Except String Unit :=
  match lockResult with
  | .error e => .error ("failed to acquire lock: " ++ e)
  | .ok false => .ok ()
  | .ok true => handlerResult

/-- Collaborator oracles for one worker job.  The cache `Get` is modeled
as an error-free found/not-found lookup (a cache error is treated by the
code like a miss); the repository lookups return the Go zero values
(`0` / `""`) when the row is absent; `upstreamOk` says whether the
upstream fetch (and the subsequent mapping and upsert, which no claim
here concerns) succeeds. -/
structure WorkerEnv where
  cacheFound : String → Bool
  hotelIdByPk : String → Int
  hotelIdFromReviewByPk : String → Int
  reviewCountByHotelId : Int → Int
  langById : String → String
  upstreamOk : Bool

/-- `processHotelMessage`: cache check, then
`hotelId := gormRepo.GetHotelIdByPk(message.ID)` and — with no check of
`hotelId` against 0 — the upstream call `FetchHotelData(hotelId)`.  The
second component records the upstream calls made (the fetched id,
rendered as the request path renders it). -/
def processHotelMessage (env : WorkerEnv) (m : QueueMsg) :
    Except String Unit × List Int :=
  if env.cacheFound ("hotel_data_" ++ m.id) then (.ok (), [])
  else
    let hotelId := env.hotelIdByPk m.id
    if env.upstreamOk then (.ok (), [hotelId])
    else (.error "failed to fetch hotel data", [hotelId])

/-- `processReviewsMessage`: cache check; for `fetch_review` the hotel
id is parsed from `data` and the review count defaults to 10; otherwise
(`update_review`) the hotel id is resolved from the reviews row by
primary key — 0 means return nil (success) — and the review count from
the reviews table — 0 likewise means return nil. -/
def processReviewsMessage (env : WorkerEnv) (m : QueueMsg) :
    Except String Unit × List Int :=
  if env.cacheFound ("reviews_data_" ++ m.id) then (.ok (), [])
  else if m.messageType == messageTypeFetchReview then
    match m.data with
    | none => (.error "message data is nil", [])
    | some d =>
        match (d.hotelId.getD "").toInt? with
        | none => (.error "failed to parse hotel_id", [])
        | some hotelId =>
            if env.upstreamOk then (.ok (), [hotelId])
            else (.error "failed to fetch reviews", [hotelId])
  else
    let hotelId := env.hotelIdFromReviewByPk m.id
    if hotelId == 0 then (.ok (), [])
    else
      let reviewCount := env.reviewCountByHotelId hotelId
      if reviewCount == 0 then (.ok (), [])
      else if env.upstreamOk then (.ok (), [hotelId])
      else (.error "failed to fetch reviews", [hotelId])

/-- `processTranslationsMessage`: cache check; `data` must be present;
the hotel id is read from `data`; `lang` comes from `data` for
`fetch_translation` and from `GetLangById(message.ID)` for
`update_translation`; an empty `lang` is an error
(`"lang is empty"`), not a success. -/
def processTranslationsMessage (env : WorkerEnv) (m : QueueMsg) :
    Except String Unit × List String :=
  if env.cacheFound ("translations_data_" ++ m.id) then (.ok (), [])
  else
    match m.data with
    | none => (.error "message data is nil", [])
    | some d =>
        let hotelIdStr := d.hotelId.getD ""
        let lang :=
          if m.messageType == messageTypeFetchTranslation then d.lang.getD ""
          else if m.messageType == messageTypeUpdateTranslation then env.langById m.id
          else ""
        if lang == "" then (.error "lang is empty", [])
        else if env.upstreamOk then (.ok (), [hotelIdStr])
        else (.error "failed to fetch translations data", [hotelIdStr])

/-! ### Reviews persistence — gorm_repository.go and the per-review
loop of processReviewsMessage -/

/-- One row of the `reviews` table.  `payload` stands for the columns
not individually tracked (scores, text, dates, …). -/
structure ReviewRow where
  id : String
  reviewId : Int
  hotelId : Int
  payload : String
deriving Repr, DecidableEq

/-- `GetReviewByReviewID`: `First(&e, "review_id = ?")`.
`reviews.review_id` carries a unique index, so at most one row matches
and the pick order is immaterial. -/
def getReviewByReviewID (tbl : List ReviewRow) (reviewId : Int) : Option ReviewRow :=
  tbl.find? (fun row => row.reviewId == reviewId)

/-- `UpdateReview` = `db.Save`: replace all fields of the row with the
same primary key (`Save` inserts when the key is absent). -/
def updateReview (tbl : List ReviewRow) (row : ReviewRow) : List ReviewRow :=
  if tbl.any (fun r => r.id == row.id) then
    tbl.map (fun r => if r.id == row.id then row else r)
  else tbl ++ [row]

/-- `CreateReview` = `db.Create`, with the `BeforeCreate` hook assigning
a fresh UUID when the incoming `ID` is empty. -/
def createReview (tbl : List ReviewRow) (row : ReviewRow) (freshId : String) :
    List ReviewRow :=
  tbl ++ [if row.id == "" then { row with id := freshId } else row]

/-- The per-review body of the persistence loop in
`processReviewsMessage`: look the incoming review up by `review_id`; if
a row with a non-empty `ID` exists, keep its `ID` and update in place;
otherwise create. -/
def upsertReviewByReviewID (tbl : List ReviewRow) (incoming : ReviewRow)
    (freshId : String) : List ReviewRow :=
  match getReviewByReviewID tbl incoming.reviewId with
  | some existing =>
      if existing.id ≠ "" then updateReview tbl { incoming with id := existing.id }
      else createReview tbl incoming freshId
  | none => createReview tbl incoming freshId

/-- Number of rows for a given `review_id`. -/
def countReviews (tbl : List ReviewRow) (reviewId : Int) : Nat :=
  (tbl.filter (fun row => row.reviewId == reviewId)).length

/-! ### Hotel / translation persistence — gorm_repository.go and the
entity hooks -/

/-- One row of the `hotels` or `translations` table.  `lang` is only
meaningful for translations; `deletedAtSet` models
`gorm.DeletedAt.Valid`; `payload` stands for the columns not
individually tracked (name, description, JSON blobs, …). -/
structure EntityRow where
  id : String
  hotelId : Int
  lang : String
  status : String
  source : String
  deletedAtSet : Bool
  createdAt : Int
  updatedAt : Int
  nextUpdateAt : Int
  payload : String
deriving Repr, DecidableEq

/-- `HotelData.BeforeUpdate`: set `UpdatedAt := now`; force
`Status := "active"` whenever `DeletedAt` is unset. -/
def hotelDataBeforeUpdate (now : Int) (h : EntityRow) : EntityRow :=
  { h with
    updatedAt := now
    status := if h.deletedAtSet then h.status else "active" }

/-- `HotelTranslation.BeforeUpdate`: identical to the hotel hook. -/
def hotelTranslationBeforeUpdate (now : Int) (t : EntityRow) : EntityRow :=
  { t with
    updatedAt := now
    status := if t.deletedAtSet then t.status else "active" }

/-- `HotelData.BeforeCreate` / `HotelTranslation.BeforeCreate`: assign a
fresh UUID when `ID` is empty; stamp `CreatedAt`, `UpdatedAt`,
`NextUpdateAt`; default `Status` and `Source`. -/
def entityBeforeCreate (now : Int) (freshId : String) (h : EntityRow) : EntityRow :=
  { h with
    id := if h.id == "" then freshId else h.id
    createdAt := now
    updatedAt := now
    nextUpdateAt := now
    status := if h.status == "" then "active" else h.status
    source := if h.source == "" then "cupid_api" else h.source }

/-- `First` with `WHERE hotel_id = ?` over the hotels table. -/
def findHotelByHotelId (tbl : List EntityRow) (hotelId : Int) : Option EntityRow :=
  tbl.find? (fun r => r.hotelId == hotelId)

/-- `First` with `WHERE hotel_id = ? AND lang = ?` over the translations
table. -/
def findTranslationByKey (tbl : List EntityRow) (hotelId : Int) (lang : String) :
    Option EntityRow :=
  tbl.find? (fun r => r.hotelId == hotelId && r.lang == lang)

/-- `db.Save` by primary key, running the given `BeforeUpdate` hook on
the saved value (`Save` inserts when the key is absent; the upsert call
sites below always pass a present key). -/
def saveEntity (hook : EntityRow → EntityRow) (tbl : List EntityRow)
    (row : EntityRow) : List EntityRow :=
  if tbl.any (fun r => r.id == row.id) then
    tbl.map (fun r => if r.id == row.id then hook row else r)
  else tbl ++ [hook row]

/-- `UpsertHotel`: look up by `hotel_id`; create when absent; otherwise
copy the existing row's `ID` and `CreatedAt` onto the incoming record
and `Save` it (which runs `HotelData.BeforeUpdate`). -/
def upsertHotel (now : Int) (freshId : String) (tbl : List EntityRow)
    (hotel : EntityRow) : List EntityRow :=
  match findHotelByHotelId tbl hotel.hotelId with
  | none => tbl ++ [entityBeforeCreate now freshId hotel]
  | some existing =>
      saveEntity (hotelDataBeforeUpdate now) tbl
        { hotel with id := existing.id, createdAt := existing.createdAt }

/-- `UpsertHotelTranslations`: look up by `(hotel_id, lang)`; create
when absent; otherwise copy `ID` and `CreatedAt` and `Save` (running
`HotelTranslation.BeforeUpdate`). -/
def upsertHotelTranslations (now : Int) (freshId : String) (tbl : List EntityRow)
    (translation : EntityRow) : List EntityRow :=
  match findTranslationByKey tbl translation.hotelId translation.lang with
  | none => tbl ++ [entityBeforeCreate now freshId translation]
  | some existing =>
      saveEntity (hotelTranslationBeforeUpdate now) tbl
        { translation with id := existing.id, createdAt := existing.createdAt }

/-- Two review rows of the same hotel (`hotel_id = 1`), both eligible. -/
def c2RowA : SourceRow := ⟨"review_a", 1, 0⟩

/-- See `c2RowA`. -/
def c2RowB : SourceRow := ⟨"review_b", 1, 0⟩

/-- Oracle for the C4 counterexample and witness: cache misses
everywhere, every repository resolution returns the zero value, the
upstream fetch fails. -/
def c4Env : WorkerEnv :=
  { cacheFound := fun _ => false
    hotelIdByPk := fun _ => 0
    hotelIdFromReviewByPk := fun _ => 0
    reviewCountByHotelId := fun _ => 0
    langById := fun _ => ""
    upstreamOk := false }

/-- An `update_hotel` job. -/
def c4HotelMsg : QueueMsg := ⟨"job_hotel", messageTypeUpdateHotel, none⟩

/-- An `update_review` job. -/
def c4ReviewMsg : QueueMsg := ⟨"job_review", messageTypeUpdateReview, none⟩

/-- An `update_translation` job with `data.hotel_id = "7"`. -/
def c4TranslationMsg : QueueMsg :=
  ⟨"job_translation", messageTypeUpdateTranslation, some ⟨some "7", none⟩⟩

/-- A row whose status is not `"active"` and whose `deleted_at` is
unset. -/
def c9Row : EntityRow :=
  ⟨"pk1", 7, "", "inactive", "cupid_api", false, 100, 100, 100, "payload"⟩


/-- The existing hotel row for the C10 counterexample. -/
def c10Existing : EntityRow :=
  ⟨"pk1", 7, "", "active", "cupid_api", false, 100, 100, 100, "old"⟩

/-- The incoming hotel record: same `hotel_id`, status `"inactive"`,
`deleted_at` unset. -/
def c10Incoming : EntityRow :=
  ⟨"", 7, "", "inactive", "cupid_api", false, 0, 0, 500, "new"⟩

/-- The existing translation row for the C10 witness. -/
def c10TransExisting : EntityRow :=
  ⟨"pk2", 7, "es", "active", "cupid_api", false, 100, 100, 100, "old"⟩

/-- The incoming translation record. -/
def c10TransIncoming : EntityRow :=
  ⟨"", 7, "es", "inactive", "cupid_api", false, 0, 0, 500, "new"⟩


/-! ### Claims C1 and C5 -/

/-- Claim C1: for every upstream response with status 404, the API
client surfaces the 404 error to the caller (wrapped in the
`"operation failed after N retries"` message), performs exactly one
attempt (no retry), and the circuit breaker records the call as a
success, so its consecutive-failures counter does not advance — it is
reset to 0. -/
theorem c1_http404_surfaced_no_retry_breaker_success
    (cfg : RetryConfig) (counts : BreakerCounts)
    (outcomes : Nat → UpstreamOutcome) (body : String)
    (h0 : outcomes 0 = .status 404 body) :
    executeWithRetry cfg outcomes counts =
      (⟨0⟩, .error (retryFailureMsg cfg (.http 404 body)), 1) := by
  have hperf : performRequest counts (outcomes 0) = (⟨0⟩, .error (.http 404 body)) := by
    simp [h0, performRequest, doHTTPRequest, is404Error]
  cases hmr : cfg.maxRetries with
  | zero => simp [executeWithRetry, hmr, executeWithRetryAux, hperf]
  | succ fuel =>
      simp [executeWithRetry, hmr, executeWithRetryAux, hperf, isRetryableError]

/-- Witness for C1 at a concrete configuration: three allowed retries, a
breaker that already saw two consecutive failures, an upstream that
answers 404. -/
theorem c1_http404_surfaced_no_retry_breaker_success_witness :
    executeWithRetry (cupidRetryConfig 3) (fun _ => .status 404 "not found") ⟨2⟩ =
      (⟨0⟩, .error (retryFailureMsg (cupidRetryConfig 3) (.http 404 "not found")), 1) :=
  c1_http404_surfaced_no_retry_breaker_success (cupidRetryConfig 3) ⟨2⟩
    (fun _ => .status 404 "not found") "not found" rfl

/-- Counterexample to claim C5 as stated: with the adapter's
configuration (base delay 1s, multiplier 2, cap 30s) the delays waited
before attempts 2 and 3 are 4s and 6s (evaluated at a wall clock where
the jitter term vanishes, `now % 1000 = 500`); a geometric schedule with
the configured multiplier would require 8s after 4s.  The cap is not
active at attempt 3, so the deviation is not caused by the maximum
delay. -/
theorem c5_counterexample_delay_not_geometric :
    calculateRetryDelay (cupidRetryConfig 3) 2 500 = 4 ∧
    calculateRetryDelay (cupidRetryConfig 3) 3 500 = 6 ∧
    retryDelayCapped (cupidRetryConfig 3) 3 ≠
      (cupidRetryConfig 3).multiplier * retryDelayCapped (cupidRetryConfig 3) 2 ∧
    retryDelayRaw (cupidRetryConfig 3) 3 < (cupidRetryConfig 3).maxDelay := by
  refine ⟨?_, ?_, ?_, ?_⟩ <;>
    norm_num [calculateRetryDelay, retryDelayCapped, retryDelayRaw, cupidRetryConfig]

/-- Claim C5, amended: the pre-jitter delay before attempt n is
`min(baseDelay · n · multiplier, maxDelay)` — it grows linearly in the
attempt number with constant increment `baseDelay · multiplier` while
below the cap (and jitter then perturbs it by at most ±10%); it does not
grow geometrically. -/
theorem c5_amended_delay_grows_linearly
    (cfg : RetryConfig) (attempt : Nat)
    (hbase : 0 ≤ cfg.baseDelay) (hmult : 0 ≤ cfg.multiplier)
    (hcap : retryDelayRaw cfg (attempt + 1) ≤ cfg.maxDelay) :
    retryDelayCapped cfg (attempt + 1) - retryDelayCapped cfg attempt =
      cfg.baseDelay * cfg.multiplier := by
  have hmono : retryDelayRaw cfg attempt ≤ retryDelayRaw cfg (attempt + 1) := by
    unfold retryDelayRaw
    have hstep : (attempt : ℚ) ≤ (attempt + 1 : Nat) := by
      push_cast; linarith
    have h1 : cfg.baseDelay * attempt ≤ cfg.baseDelay * (attempt + 1 : Nat) :=
      mul_le_mul_of_nonneg_left hstep hbase
    exact mul_le_mul_of_nonneg_right h1 hmult
  have hcap0 : retryDelayRaw cfg attempt ≤ cfg.maxDelay := le_trans hmono hcap
  have e1 : retryDelayCapped cfg (attempt + 1) = retryDelayRaw cfg (attempt + 1) := by
    unfold retryDelayCapped
    rw [if_neg (not_lt.mpr hcap)]
  have e0 : retryDelayCapped cfg attempt = retryDelayRaw cfg attempt := by
    unfold retryDelayCapped
    rw [if_neg (not_lt.mpr hcap0)]
  rw [e1, e0]
  unfold retryDelayRaw
  push_cast
  ring

/-- Witness for the amended C5 at the adapter's configuration: between
attempts 1 and 2 the delay grows by exactly
`baseDelay · multiplier = 2` seconds. -/
theorem c5_amended_delay_grows_linearly_witness :
    retryDelayCapped (cupidRetryConfig 3) 2 - retryDelayCapped (cupidRetryConfig 3) 1 =
      (cupidRetryConfig 3).baseDelay * (cupidRetryConfig 3).multiplier :=
  c5_amended_delay_grows_linearly (cupidRetryConfig 3) 1
    (by norm_num [cupidRetryConfig]) (by norm_num [cupidRetryConfig])
    (by norm_num [cupidRetryConfig, retryDelayRaw])

/-! ### Claims C2, C6, C7 -/

/-- Counterexample to claim C2 as stated: with page size 1 and two
eligible review rows sharing `hotel_id = 1`, the run enqueues only the
first row — the second eligible row is skipped because the next page
filters `hotel_id > 1`.  Rows sharing a `hotel_id` across a page
boundary are lost, contrary to the claim. -/
theorem c2_counterexample_shared_hotel_id_row_skipped :
    eligibleRow 1 c2RowB = true ∧
    processBatchJobIDs 1 [c2RowA, c2RowB] 1 = ["review_a"] ∧
    "review_b" ∉ processBatchJobIDs 1 [c2RowA, c2RowB] 1 := by
  decide

/-- Counterexample to claim C7 as stated: one eligible row and page size
2.  The first page has 1 row — fewer than the limit and not empty — yet
the loop does not stop: it issues a second query (which returns the
empty page) before terminating. -/
theorem c7_counterexample_short_page_queries_again :
    queryRowsByID 1 [c2RowA] 0 2 = [c2RowA] ∧
    processBatchPages 1 [c2RowA] 2 = [[c2RowA], []] := by
  decide

/-- Counterexample to claim C6 as stated: even when every batch
succeeds, `runOnce` enumerates only `update_hotel`,
`fetch_translation` and `fetch_review`; the kinds `update_review` and
`update_translation` are never enumerated at startup. -/
theorem c6_counterexample_runonce_covers_three_kinds :
    runOnceKinds (fun _ => true) =
      [messageTypeUpdateHotel, messageTypeFetchTranslation, messageTypeFetchReview] ∧
    messageTypeUpdateReview ∈ allMessageKinds ∧
    messageTypeUpdateReview ∉ runOnceKinds (fun _ => true) ∧
    messageTypeUpdateTranslation ∉ runOnceKinds (fun _ => true) := by
  decide

/-- Claim C6, amended: on startup the dispatcher's `runOnce` runs one
full enumeration for exactly three message kinds — `update_hotel`,
`fetch_translation`, `fetch_review` (in that order, stopping early if
one fails); `update_review` and `update_translation` are not enumerated
at startup. -/
theorem c6_amended_runonce_three_kinds (batchOk : String → Bool)
    (h : ∀ k, batchOk k = true) :
    runOnceKinds batchOk =
      [messageTypeUpdateHotel, messageTypeFetchTranslation, messageTypeFetchReview] ∧
    messageTypeUpdateReview ∉ runOnceKinds batchOk ∧
    messageTypeUpdateTranslation ∉ runOnceKinds batchOk := by
  have hrw : runOnceKinds batchOk =
      [messageTypeUpdateHotel, messageTypeFetchTranslation, messageTypeFetchReview] := by
    simp [runOnceKinds, h]
  refine ⟨hrw, ?_, ?_⟩ <;> rw [hrw] <;> decide

/-- Witness for the amended C6: all batches succeed. -/
theorem c6_amended_runonce_three_kinds_witness :
    runOnceKinds (fun _ => true) =
      [messageTypeUpdateHotel, messageTypeFetchTranslation, messageTypeFetchReview] ∧
    messageTypeUpdateReview ∉ runOnceKinds (fun _ => true) ∧
    messageTypeUpdateTranslation ∉ runOnceKinds (fun _ => true) :=
  c6_amended_runonce_three_kinds (fun _ => true) (fun _ => rfl)

/-! ### Keyset-pagination lemmas for C2 and C7 -/

/-- Every row passing the eligibility predicate has `hotel_id > 0`. -/
theorem hotelId_pos_of_mem_eligible {now : Int} {rows : List SourceRow} {r : SourceRow}
    (h : r ∈ rows.filter (eligibleRow now)) : 0 < r.hotelId := by
  have hp := List.of_mem_filter h
  simp only [eligibleRow, Bool.and_eq_true, decide_eq_true_eq] at hp
  exact hp.2

/-- In a list strictly ascending by `hotel_id`, the last element has the
largest `hotel_id`. -/
theorem le_getLast_of_pairwise_lt :
    ∀ {l : List SourceRow}, l.Pairwise rowLtByHotelId → ∀ (hne : l ≠ []),
      ∀ x ∈ l, x.hotelId ≤ (l.getLast hne).hotelId := by
  intro l
  induction l with
  | nil => intro _ hne; exact absurd rfl hne
  | cons a t ih =>
      intro hp hne x hx
      cases t with
      | nil =>
          simp only [List.mem_singleton] at hx
          subst hx
          simp [List.getLast]
      | cons b t2 =>
          rw [List.getLast_cons (by simp)]
          rcases List.mem_cons.mp hx with hxa | hxt
          · subst hxa
            have hmem := List.getLast_mem (l := b :: t2) (by simp)
            exact le_of_lt ((List.pairwise_cons.mp hp).1 _ hmem)
          · exact ih (List.pairwise_cons.mp hp).2 (by simp) x hxt

/-- Splitting lemma for the keyset cursor: in a strictly ascending list,
filtering by `hotel_id` greater than the last element of the first `m`
rows yields exactly the rows after position `m`. -/
theorem filter_gt_getLast_take {l : List SourceRow}
    (hl : l.Pairwise rowLtByHotelId) (m : Nat) (hne : l.take m ≠ []) :
    l.filter (fun x => decide (((l.take m).getLast hne).hotelId < x.hotelId)) =
      l.drop m := by
  set r := (l.take m).getLast hne with hr
  have hsplit : l.take m ++ l.drop m = l := List.take_append_drop m l
  have hpair : (l.take m ++ l.drop m).Pairwise rowLtByHotelId := by
    rw [hsplit]; exact hl
  obtain ⟨hA, _, hAB⟩ := List.pairwise_append.mp hpair
  have hrmem : r ∈ l.take m := List.getLast_mem hne
  conv_lhs => rw [← hsplit]
  rw [List.filter_append]
  have h1 : (l.take m).filter (fun x => decide (r.hotelId < x.hotelId)) = [] := by
    apply List.filter_eq_nil_iff.mpr
    intro x hx
    simp only [decide_eq_true_eq, not_lt]
    exact le_getLast_of_pairwise_lt hA hne x hx
  have h2 : (l.drop m).filter (fun x => decide (r.hotelId < x.hotelId)) = l.drop m := by
    apply List.filter_eq_self.mpr
    intro x hx
    simp only [decide_eq_true_eq]
    exact hAB r hrmem x hx
  rw [h1, h2, List.nil_append]

/-- On a table whose eligible rows are strictly ascending by `hotel_id`,
the keyset query is: keep the eligible rows after the cursor, in order,
and take the first `limit` of them. -/
theorem queryRowsByID_eq_of_sorted (now : Int) (rows : List SourceRow)
    (hstrict : (rows.filter (eligibleRow now)).Pairwise rowLtByHotelId)
    (lastHotelID : Int) (hlast : 0 ≤ lastHotelID) (limit : Nat) :
    queryRowsByID now rows lastHotelID limit =
      ((rows.filter (eligibleRow now)).filter
        (fun r => decide (lastHotelID < r.hotelId))).take limit := by
  by_cases hpos : 0 < lastHotelID
  · have hsorted : ((rows.filter (eligibleRow now)).filter
        (fun r => decide (lastHotelID < r.hotelId))).Sorted rowLeByHotelId :=
      (List.Pairwise.sublist (List.filter_sublist _) hstrict).imp (fun h => le_of_lt h)
    have hfilter : (rows.filter fun r =>
        eligibleRow now r &&
          (if 0 < lastHotelID then decide (lastHotelID < r.hotelId) else true)) =
        (rows.filter (eligibleRow now)).filter
          (fun r => decide (lastHotelID < r.hotelId)) := by
      rw [List.filter_filter]
      apply List.filter_congr
      intro x _
      simp [hpos, Bool.and_comm]
    rw [queryRowsByID, hfilter, hsorted.insertionSort_eq]
  · have hz : lastHotelID = 0 := le_antisymm (not_lt.mp hpos) hlast
    have hfilter : (rows.filter fun r =>
        eligibleRow now r &&
          (if 0 < lastHotelID then decide (lastHotelID < r.hotelId) else true)) =
        rows.filter (eligibleRow now) := by
      apply List.filter_congr
      intro x _
      simp [hpos]
    have hfilter2 : (rows.filter (eligibleRow now)).filter
        (fun r => decide (lastHotelID < r.hotelId)) = rows.filter (eligibleRow now) := by
      apply List.filter_eq_self.mpr
      intro x hx
      simp only [decide_eq_true_eq, hz]
      exact hotelId_pos_of_mem_eligible hx
    have hsorted2 : (rows.filter (eligibleRow now)).Sorted rowLeByHotelId :=
      hstrict.imp (fun h => le_of_lt h)
    rw [queryRowsByID, hfilter, hsorted2.insertionSort_eq, hfilter2]

/-- Unfolding of one page-loop iteration. -/
theorem processBatchPagesAux_succ (now : Int) (rows : List SourceRow) (limit fuel : Nat)
    (lastHotelID : Int) :
    processBatchPagesAux now rows limit (fuel + 1) lastHotelID =
      match (queryRowsByID now rows lastHotelID limit).getLast? with
      | none => [[]]
      | some lastRow =>
          queryRowsByID now rows lastHotelID limit ::
            processBatchPagesAux now rows limit fuel lastRow.hotelId := rfl

/-- Invariant of the page loop: started at a cursor `lastHotelID ≥ 0`
with enough fuel, on a table whose eligible rows are strictly ascending
by `hotel_id`, the loop (a) enumerates exactly the eligible rows after
the cursor, each once, (b) ends with exactly one empty query, and (c)
every earlier page is non-empty. -/
theorem processBatchPagesAux_spec (now : Int) (rows : List SourceRow) (limit : Nat)
    (hstrict : (rows.filter (eligibleRow now)).Pairwise rowLtByHotelId)
    (hlimit : 1 ≤ limit) :
    ∀ (fuel : Nat) (lastHotelID : Int), 0 ≤ lastHotelID →
      ((rows.filter (eligibleRow now)).filter
        (fun r => decide (lastHotelID < r.hotelId))).length < fuel →
      (processBatchPagesAux now rows limit fuel lastHotelID).flatten =
        (rows.filter (eligibleRow now)).filter
          (fun r => decide (lastHotelID < r.hotelId)) ∧
      (processBatchPagesAux now rows limit fuel lastHotelID).getLast? = some [] ∧
      ∀ p ∈ (processBatchPagesAux now rows limit fuel lastHotelID).dropLast, p ≠ [] := by
  intro fuel
  induction fuel with
  | zero => intro last _ hlen; exact absurd hlen (Nat.not_lt_zero _)
  | succ fuel ih =>
      intro last hlast hlen
      have hquery : queryRowsByID now rows last limit =
          ((rows.filter (eligibleRow now)).filter
            (fun r => decide (last < r.hotelId))).take limit :=
        queryRowsByID_eq_of_sorted now rows hstrict last hlast limit
      set R := (rows.filter (eligibleRow now)).filter
        (fun r => decide (last < r.hotelId)) with hRdef
      cases hRcases : R with
      | nil =>
          rw [processBatchPagesAux_succ, hquery, hRcases]
          refine ⟨?_, ?_, ?_⟩ <;> simp
      | cons r0 Rtl =>
          have hRne : R ≠ [] := by rw [hRcases]; simp
          have hne : R.take limit ≠ [] := by
            intro hcontra
            rcases List.take_eq_nil_iff.mp hcontra with h | h
            · omega
            · exact hRne h
          have hpage : queryRowsByID now rows last limit = R.take limit := hquery
          have hlastq : (queryRowsByID now rows last limit).getLast? =
              some ((R.take limit).getLast hne) := by
            rw [hpage]
            exact List.getLast?_eq_getLast _ hne
          set pl := (R.take limit).getLast hne with hpl
          have hplR : pl ∈ R := (List.take_sublist limit R).mem (List.getLast_mem hne)
          have hplF : pl ∈ rows.filter (eligibleRow now) := by
            have := List.mem_filter.mp (hRdef ▸ hplR)
            exact this.1
          have hplpos : 0 < pl.hotelId := hotelId_pos_of_mem_eligible hplF
          have hlast_lt : last < pl.hotelId := by
            have := List.mem_filter.mp (hRdef ▸ hplR)
            simpa using this.2
          have hRpair : R.Pairwise rowLtByHotelId :=
            List.Pairwise.sublist (List.filter_sublist _) hstrict
          have hnext : (rows.filter (eligibleRow now)).filter
              (fun r => decide (pl.hotelId < r.hotelId)) = R.drop limit := by
            have h1 : R.filter (fun r => decide (pl.hotelId < r.hotelId)) =
                R.drop limit := filter_gt_getLast_take hRpair limit hne
            have h2 : (rows.filter (eligibleRow now)).filter
                (fun r => decide (pl.hotelId < r.hotelId)) =
                R.filter (fun r => decide (pl.hotelId < r.hotelId)) := by
              show _ = ((rows.filter (eligibleRow now)).filter
                (fun r => decide (last < r.hotelId))).filter
                  (fun r => decide (pl.hotelId < r.hotelId))
              simp only [List.filter_filter]
              apply List.filter_congr
              intro x _
              by_cases hx : pl.hotelId < x.hotelId
              · have hx2 : last < x.hotelId := lt_trans hlast_lt hx
                simp [hx, hx2]
              · simp [hx]
            rw [h2, h1]
          have hlen2 : ((rows.filter (eligibleRow now)).filter
              (fun r => decide (pl.hotelId < r.hotelId))).length < fuel := by
            rw [hnext, List.length_drop]
            have hRlen : 1 ≤ R.length := by rw [hRcases]; simp
            omega
          obtain ⟨ihj, ihl, ihd⟩ := ih pl.hotelId (le_of_lt hplpos) hlen2
          set rest := processBatchPagesAux now rows limit fuel pl.hotelId with hrest
          have hrestne : rest ≠ [] := by
            intro hcontra
            rw [hcontra] at ihl
            simp at ihl
          have hstep : processBatchPagesAux now rows limit (fuel + 1) last =
              R.take limit :: rest := by
            rw [processBatchPagesAux_succ, hlastq]
            rw [hpage]
          rw [hstep]
          refine ⟨?_, ?_, ?_⟩
          · rw [List.flatten_cons, ihj, hnext, List.take_append_drop]
            exact hRcases
          · rcases List.exists_cons_of_ne_nil hrestne with ⟨p0, ptl, hp0⟩
            rw [hp0, List.getLast?_cons_cons, ← hp0, ihl]
          · rcases List.exists_cons_of_ne_nil hrestne with ⟨p0, ptl, hp0⟩
            rw [hp0, List.dropLast_cons₂]
            intro p hp
            rcases List.mem_cons.mp hp with hp1 | hp2
            · rw [hp1]; exact hne
            · exact ihd p (hp0 ▸ hp2)

/-- In a list ascending by `hotel_id` (ties allowed), the last element
has the largest `hotel_id`. -/
theorem le_getLast_of_pairwise_le :
    ∀ {l : List SourceRow}, l.Pairwise rowLeByHotelId → ∀ (hne : l ≠ []),
      ∀ x ∈ l, x.hotelId ≤ (l.getLast hne).hotelId := by
  intro l
  induction l with
  | nil => intro _ hne; exact absurd rfl hne
  | cons a t ih =>
      intro hp hne x hx
      cases t with
      | nil =>
          simp only [List.mem_singleton] at hx
          subst hx
          simp [List.getLast]
      | cons b t2 =>
          rw [List.getLast_cons (by simp)]
          rcases List.mem_cons.mp hx with hxa | hxt
          · subst hxa
            have hmem := List.getLast_mem (l := b :: t2) (by simp)
            exact (List.pairwise_cons.mp hp).1 _ hmem
          · exact ih (List.pairwise_cons.mp hp).2 (by simp) x hxt

/-- Normal form of the keyset query for cursors ≥ 0: the cursor guard
`hotel_id > lastHotelID` can be applied unconditionally, because the
eligibility predicate already demands `hotel_id > 0`. -/
theorem queryRowsByID_eq_norm (now : Int) (rows : List SourceRow) {lastHotelID : Int}
    (hlast : 0 ≤ lastHotelID) (limit : Nat) :
    queryRowsByID now rows lastHotelID limit =
      ((rows.filter (fun r => eligibleRow now r &&
        decide (lastHotelID < r.hotelId))).insertionSort rowLeByHotelId).take limit := by
  have hfilter : (rows.filter fun r =>
      eligibleRow now r &&
        (if 0 < lastHotelID then decide (lastHotelID < r.hotelId) else true)) =
      rows.filter (fun r => eligibleRow now r && decide (lastHotelID < r.hotelId)) := by
    apply List.filter_congr
    intro x _
    by_cases hpos : 0 < lastHotelID
    · simp [hpos]
    · have hz : lastHotelID = 0 := le_antisymm (not_lt.mp hpos) hlast
      subst hz
      cases helig : eligibleRow now x
      · simp
      · have hpos2 : decide ((0 : Int) < x.hotelId) = true := by
          simp only [eligibleRow, Bool.and_eq_true, decide_eq_true_eq] at helig
          simpa using helig.2
        simp [hpos2]
  rw [queryRowsByID, hfilter]

/-- Moving the keyset cursor forward: the rows past a larger cursor are
the rows past a smaller cursor, filtered again. -/
theorem filter_norm_trans (now : Int) (rows : List SourceRow) {lastHotelID pl : Int}
    (hlt : lastHotelID < pl) :
    rows.filter (fun r => eligibleRow now r && decide (pl < r.hotelId)) =
      (rows.filter (fun r => eligibleRow now r &&
        decide (lastHotelID < r.hotelId))).filter
          (fun r => decide (pl < r.hotelId)) := by
  rw [List.filter_filter]
  apply List.filter_congr
  intro x _
  by_cases hx : pl < x.hotelId
  · have h2 : lastHotelID < x.hotelId := lt_trans hlt hx
    simp [hx, h2]
  · simp [hx]

/-- The cursor-0 filter is the plain eligibility filter. -/
theorem filter_elig_and_pos (now : Int) (rows : List SourceRow) :
    rows.filter (fun r => eligibleRow now r && decide ((0 : Int) < r.hotelId)) =
      rows.filter (eligibleRow now) := by
  apply List.filter_congr
  intro x _
  cases helig : eligibleRow now x
  · simp
  · have hpos2 : decide ((0 : Int) < x.hotelId) = true := by
      simp only [eligibleRow, Bool.and_eq_true, decide_eq_true_eq] at helig
      simpa using helig.2
    simp [hpos2]

/-- In a list ascending by `hotel_id` (ties allowed), the rows with
`hotel_id` strictly beyond the last row of the first `m` rows form a
sublist of the rows after position `m` — rows tied with that last
`hotel_id` are excluded along with the first `m`. -/
theorem filter_gt_getLast_take_sublist_drop {l : List SourceRow}
    (hl : l.Pairwise rowLeByHotelId) (m : Nat) {pl : SourceRow}
    (hgl : (l.take m).getLast? = some pl) :
    (l.filter (fun x => decide (pl.hotelId < x.hotelId))).Sublist (l.drop m) := by
  have hne : l.take m ≠ [] := by intro hc; rw [hc] at hgl; simp at hgl
  have hpl : (l.take m).getLast hne = pl := by
    have h2 := List.getLast?_eq_getLast (l.take m) hne
    rw [h2] at hgl
    injection hgl
  have hsplit : l.take m ++ l.drop m = l := List.take_append_drop m l
  have hpair : (l.take m ++ l.drop m).Pairwise rowLeByHotelId := by
    rw [hsplit]; exact hl
  obtain ⟨hA, _, _⟩ := List.pairwise_append.mp hpair
  have htake0 : (l.take m).filter (fun x => decide (pl.hotelId < x.hotelId)) = [] := by
    apply List.filter_eq_nil_iff.mpr
    intro x hx
    simp only [decide_eq_true_eq, not_lt]
    rw [← hpl]
    exact le_getLast_of_pairwise_le hA hne x hx
  have heq : l.filter (fun x => decide (pl.hotelId < x.hotelId)) =
      (l.drop m).filter (fun x => decide (pl.hotelId < x.hotelId)) := by
    conv_lhs => rw [← hsplit]
    rw [List.filter_append, htake0, List.nil_append]
  rw [heq]
  exact List.filter_sublist _

/-- Sub-permutations are preserved by `map`. -/
theorem subperm_map {α β : Type} (f : α → β) {l1 l2 : List α}
    (h : l1.Subperm l2) : (l1.map f).Subperm (l2.map f) := by
  obtain ⟨l, hp, hs⟩ := h
  exact ⟨l.map f, hp.map f, hs.map f⟩

/-- General invariant of the page loop, with no assumption on the
table: started at a cursor ≥ 0 with enough fuel, (a) the trace ends
with exactly one empty query, (b) every earlier page is non-empty, and
(c) the concatenation of the pages is a sub-permutation of the eligible
rows past the cursor — no table row is emitted more often than it
occurs. -/
theorem processBatchPagesAux_general_spec (now : Int) (rows : List SourceRow)
    (limit : Nat) (hlimit : 1 ≤ limit) :
    ∀ (fuel : Nat) (lastHotelID : Int), 0 ≤ lastHotelID →
      (rows.filter (fun r => eligibleRow now r &&
        decide (lastHotelID < r.hotelId))).length < fuel →
      (processBatchPagesAux now rows limit fuel lastHotelID).getLast? = some [] ∧
      (∀ p ∈ (processBatchPagesAux now rows limit fuel lastHotelID).dropLast, p ≠ []) ∧
      (processBatchPagesAux now rows limit fuel lastHotelID).flatten.Subperm
        (rows.filter (fun r => eligibleRow now r &&
          decide (lastHotelID < r.hotelId))) := by
  intro fuel
  induction fuel with
  | zero => intro last _ hlen; exact absurd hlen (Nat.not_lt_zero _)
  | succ fuel ih =>
      intro last hlast hlen
      have hquery := queryRowsByID_eq_norm now rows hlast limit
      set N := rows.filter (fun r => eligibleRow now r &&
        decide (last < r.hotelId)) with hNdef
      set S := N.insertionSort rowLeByHotelId with hSdef
      have hperm : S.Perm N := List.perm_insertionSort _ _
      have hsorted : S.Pairwise rowLeByHotelId := List.sorted_insertionSort _ _
      cases hgl : (S.take limit).getLast? with
      | none =>
          have hstep : processBatchPagesAux now rows limit (fuel + 1) last = [[]] := by
            rw [processBatchPagesAux_succ, hquery, hgl]
          have hempty : S.take limit = [] := by
            cases hS : S.take limit with
            | nil => rfl
            | cons a t => rw [hS] at hgl; simp at hgl
          have hSnil : S = [] := by
            cases hS : S with
            | nil => rfl
            | cons a t =>
                rw [hS] at hempty
                rcases List.take_eq_nil_iff.mp hempty with h | h
                · omega
                · exact absurd h (by simp)
          have hNnil : N = [] := List.Perm.eq_nil (hSnil ▸ hperm.symm)
          rw [hstep]
          refine ⟨rfl, ?_, ?_⟩
          · intro p hp
            simp at hp
          · rw [hNnil]
            exact List.nil_subperm
      | some pl =>
          have hplpage : pl ∈ S.take limit := List.mem_of_getLast?_eq_some hgl
          have hplS : pl ∈ S := (List.take_sublist _ _).mem hplpage
          have hplN : pl ∈ N := hperm.subset hplS
          have hplfacts := List.mem_filter.mp (hNdef ▸ hplN)
          have hlastlt : last < pl.hotelId := by
            have h2 := hplfacts.2
            simp only [Bool.and_eq_true, decide_eq_true_eq] at h2
            exact h2.2
          have hplpos : (0 : Int) < pl.hotelId := by
            have h2 := hplfacts.2
            simp only [eligibleRow, Bool.and_eq_true, decide_eq_true_eq] at h2
            exact h2.1.2
          have hNnext : rows.filter (fun r => eligibleRow now r &&
              decide (pl.hotelId < r.hotelId)) =
              N.filter (fun r => decide (pl.hotelId < r.hotelId)) := by
            rw [hNdef]
            exact filter_norm_trans now rows hlastlt
          have hdec : (N.filter (fun r => decide (pl.hotelId < r.hotelId))).length <
              N.length :=
            List.length_filter_lt_length_iff_exists.mpr ⟨pl, hplN, by simp⟩
          have hlen2 : (rows.filter (fun r => eligibleRow now r &&
              decide (pl.hotelId < r.hotelId))).length < fuel := by
            rw [hNnext]
            omega
          obtain ⟨ihA, ihB, ihE⟩ := ih pl.hotelId (le_of_lt hplpos) hlen2
          set rest := processBatchPagesAux now rows limit fuel pl.hotelId with hrest
          have hrestne : rest ≠ [] := by
            intro hc
            rw [hc] at ihA
            simp at ihA
          have hstep : processBatchPagesAux now rows limit (fuel + 1) last =
              S.take limit :: rest := by
            rw [processBatchPagesAux_succ, hquery, hgl]
          rw [hstep]
          refine ⟨?_, ?_, ?_⟩
          · rcases List.exists_cons_of_ne_nil hrestne with ⟨p0, ptl, hp0⟩
            rw [hp0, List.getLast?_cons_cons, ← hp0, ihA]
          · rcases List.exists_cons_of_ne_nil hrestne with ⟨p0, ptl, hp0⟩
            rw [hp0, List.dropLast_cons₂]
            intro p hp
            rcases List.mem_cons.mp hp with hp1 | hp2
            · rw [hp1]
              intro hc
              rw [hc] at hplpage
              simp at hplpage
            · exact ihB p (hp0 ▸ hp2)
          · rw [List.flatten_cons]
            have h1 : rest.flatten.Subperm (S.drop limit) := by
              have h2 : rest.flatten.Subperm
                  (N.filter (fun r => decide (pl.hotelId < r.hotelId))) := by
                rw [← hNnext]
                exact ihE
              have h3 : (N.filter (fun r => decide (pl.hotelId < r.hotelId))).Perm
                  (S.filter (fun r => decide (pl.hotelId < r.hotelId))) :=
                List.Perm.filter _ hperm.symm
              have h4 : (S.filter (fun r => decide (pl.hotelId < r.hotelId))).Sublist
                  (S.drop limit) :=
                filter_gt_getLast_take_sublist_drop hsorted limit hgl
              exact (h2.trans h3.subperm).trans h4.subperm
            have h5 : (S.take limit ++ rest.flatten).Subperm
                (S.take limit ++ S.drop limit) :=
              (List.subperm_append_left _).mpr h1
            have h6 : (S.take limit ++ S.drop limit).Perm N := by
              rw [List.take_append_drop]
              exact hperm
            exact h5.trans h6.subperm

/-- One dispatcher run publishes a sub-permutation of the eligible
rows' primary keys: no table row's job is published more often than the
row occurs, whatever the `hotel_id` multiplicities. -/
theorem processBatchJobIDs_subperm (now : Int) (rows : List SourceRow)
    (batchSize : Int) :
    (processBatchJobIDs now rows batchSize).Subperm
      ((rows.filter (eligibleRow now)).map SourceRow.id) := by
  have hlimit : 1 ≤ effectiveBatchSize batchSize := by
    unfold effectiveBatchSize
    by_cases h : batchSize ≤ 0
    · simp [h]
    · simp only [h, if_false]
      omega
  have hlen : (rows.filter (fun r => eligibleRow now r &&
      decide ((0 : Int) < r.hotelId))).length < rows.length + 1 := by
    have h1 := List.length_filter_le (fun r => eligibleRow now r &&
      decide ((0 : Int) < r.hotelId)) rows
    omega
  obtain ⟨_, _, hE⟩ := processBatchPagesAux_general_spec now rows
    (effectiveBatchSize batchSize) hlimit (rows.length + 1) 0 (le_refl 0) hlen
  rw [filter_elig_and_pos] at hE
  exact subperm_map SourceRow.id hE

/-- Claim C2, amended: one dispatcher run using the keyset cursor never
enqueues a row twice — the published job list is a sub-permutation of
the eligible rows' primary keys, and is duplicate-free whenever the
table's primary keys are distinct (true of every table); and when the
eligible rows carry pairwise-distinct `hotel_id`s (always true for the
`hotels` table, whose `hotel_id` identifies the row) it enqueues
exactly one job per eligible row — the job list is exactly the
eligible rows in ascending order.  For the `reviews` and `translations`
tables, eligible rows that share a `hotel_id` with the last row of a
page are skipped by the next page's `hotel_id > last` filter (see the
counterexample), so exactly-once only holds under the distinctness
hypothesis. -/
theorem c2_amended_keyset_no_dup_and_exactly_once_of_distinct :
    (∀ (now : Int) (rows : List SourceRow) (batchSize : Int),
        (processBatchJobIDs now rows batchSize).Subperm
          ((rows.filter (eligibleRow now)).map SourceRow.id)) ∧
    (∀ (now : Int) (rows : List SourceRow) (batchSize : Int),
        rows.Pairwise (fun a b => a.id ≠ b.id) →
        (processBatchJobIDs now rows batchSize).Nodup) ∧
    (∀ (now : Int) (rows : List SourceRow) (batchSize : Int),
        (rows.filter (eligibleRow now)).Pairwise rowLtByHotelId →
        processBatchJobIDs now rows batchSize =
          (rows.filter (eligibleRow now)).map SourceRow.id) := by
  refine ⟨processBatchJobIDs_subperm, ?_, ?_⟩
  · intro now rows batchSize hpk
    have hsub := processBatchJobIDs_subperm now rows batchSize
    have hN : ((rows.filter (eligibleRow now)).map SourceRow.id).Nodup := by
      have hpk2 : (rows.filter (eligibleRow now)).Pairwise
          (fun a b => a.id ≠ b.id) :=
        List.Pairwise.sublist (List.filter_sublist _) hpk
      exact List.pairwise_map.mpr hpk2
    obtain ⟨l, hp, hs⟩ := hsub
    exact hp.nodup_iff.mp (List.Nodup.sublist hs hN)
  · intro now rows batchSize hstrict
    have hlimit : 1 ≤ effectiveBatchSize batchSize := by
      unfold effectiveBatchSize
      by_cases h : batchSize ≤ 0
      · simp [h]
      · simp only [h, if_false]
        omega
    have hlen : ((rows.filter (eligibleRow now)).filter
        (fun r => decide ((0 : Int) < r.hotelId))).length < rows.length + 1 := by
      have h1 : ((rows.filter (eligibleRow now)).filter
          (fun r => decide ((0 : Int) < r.hotelId))).length ≤
          (rows.filter (eligibleRow now)).length := List.length_filter_le _ _
      have h2 : (rows.filter (eligibleRow now)).length ≤ rows.length :=
        List.length_filter_le _ _
      omega
    obtain ⟨hj, _, _⟩ := processBatchPagesAux_spec now rows (effectiveBatchSize batchSize)
      hstrict hlimit (rows.length + 1) 0 (le_refl 0) hlen
    have hfix : (rows.filter (eligibleRow now)).filter
        (fun r => decide ((0 : Int) < r.hotelId)) = rows.filter (eligibleRow now) := by
      apply List.filter_eq_self.mpr
      intro x hx
      simpa using hotelId_pos_of_mem_eligible hx
    unfold processBatchJobIDs processBatchPages
    rw [hj, hfix]

/-- Witness for the amended C2: the sub-permutation and duplicate-free
conjuncts at the shared-`hotel_id` review rows of the counterexample,
and the exactly-once conjunct at two hotel rows with distinct
`hotel_id`s. -/
theorem c2_amended_keyset_no_dup_and_exactly_once_of_distinct_witness :
    (processBatchJobIDs 1 [c2RowA, c2RowB] 1).Subperm
      ((([c2RowA, c2RowB] : List SourceRow).filter (eligibleRow 1)).map
        SourceRow.id) ∧
    (processBatchJobIDs 1 [c2RowA, c2RowB] 1).Nodup ∧
    processBatchJobIDs 1 [⟨"hotel_a", 5, 0⟩, ⟨"hotel_b", 7, 0⟩] 1 =
      (([⟨"hotel_a", 5, 0⟩, ⟨"hotel_b", 7, 0⟩] : List SourceRow).filter
        (eligibleRow 1)).map SourceRow.id :=
  ⟨c2_amended_keyset_no_dup_and_exactly_once_of_distinct.1 1 [c2RowA, c2RowB] 1,
   c2_amended_keyset_no_dup_and_exactly_once_of_distinct.2.1 1 [c2RowA, c2RowB] 1
     (by decide),
   c2_amended_keyset_no_dup_and_exactly_once_of_distinct.2.2 1
     [⟨"hotel_a", 5, 0⟩, ⟨"hotel_b", 7, 0⟩] 1 (by decide)⟩

/-- Claim C7, amended: the page loop stops only when a query returns an
empty page; after every non-empty page — short or full — it issues a
further query.  On any stable table — shared `hotel_id`s included —
the trace therefore ends with exactly one empty page and every earlier
page is non-empty. -/
theorem c7_amended_stops_only_on_empty_page (now : Int) (rows : List SourceRow)
    (batchSize : Int) :
    (processBatchPages now rows batchSize).getLast? = some [] ∧
    ∀ p ∈ (processBatchPages now rows batchSize).dropLast, p ≠ [] := by
  have hlimit : 1 ≤ effectiveBatchSize batchSize := by
    unfold effectiveBatchSize
    by_cases h : batchSize ≤ 0
    · simp [h]
    · simp only [h, if_false]
      omega
  have hlen : (rows.filter (fun r => eligibleRow now r &&
      decide ((0 : Int) < r.hotelId))).length < rows.length + 1 := by
    have h1 := List.length_filter_le (fun r => eligibleRow now r &&
      decide ((0 : Int) < r.hotelId)) rows
    omega
  obtain ⟨hA, hB, _⟩ := processBatchPagesAux_general_spec now rows
    (effectiveBatchSize batchSize) hlimit (rows.length + 1) 0 (le_refl 0) hlen
  exact ⟨hA, hB⟩

/-- Witness for the amended C7 at two review rows sharing `hotel_id = 1`
with page size 1: the trace is two non-empty pages followed by the
final empty page. -/
theorem c7_amended_stops_only_on_empty_page_witness :
    (processBatchPages 1 [c2RowA, c2RowB] 1).getLast? = some [] ∧
    ∀ p ∈ (processBatchPages 1 [c2RowA, c2RowB] 1).dropLast, p ≠ [] :=
  c7_amended_stops_only_on_empty_page 1 [c2RowA, c2RowB] 1

/-! ### Row-replacement lemmas shared by the persistence claims -/

/-- Appending rows after a failed lookup: the appended part decides. -/
theorem find?_append_of_none {α : Type} (p : α → Bool) {l1 : List α} (l2 : List α)
    (h : l1.find? p = none) : (l1 ++ l2).find? p = l2.find? p := by
  induction l1 with
  | nil => simp
  | cons a t ih =>
      rw [List.find?_cons] at h
      cases hpa : p a with
      | true => rw [hpa] at h; simp at h
      | false =>
          rw [hpa] at h
          rw [List.cons_append, List.find?_cons, hpa]
          exact ih h

/-- Replacing by a key that occurs nowhere is the identity. -/
theorem map_replace_eq_self {α : Type} (idOf : α → String) {t : List α} (v : α)
    (key : String) (h : ∀ r ∈ t, idOf r ≠ key) :
    t.map (fun r => if idOf r == key then v else r) = t := by
  induction t with
  | nil => rfl
  | cons a t2 ih =>
      rw [List.map_cons]
      have ha : (idOf a == key) = false := by
        simp only [beq_eq_false_iff_ne, ne_eq]
        exact h a (List.mem_cons_self a t2)
      rw [ha]
      simp only [Bool.false_eq_true, if_false]
      rw [ih (fun r hr => h r (List.mem_cons_of_mem a hr))]

/-- The row-key of a replaced element is unchanged when the replacement
carries the key it replaces. -/
theorem idOf_replace {α : Type} (idOf : α → String) (v : α) (key : String)
    (hv : idOf v = key) (r : α) :
    idOf (if idOf r == key then v else r) = idOf r := by
  by_cases h : idOf r = key
  · simp [h, hv]
  · simp [h]

/-- Replacing one row (identified by a key that is unique in the table)
by a row that still satisfies the lookup predicate: the lookup finds the
replacement. -/
theorem find?_map_replace {α : Type} (idOf : α → String) (p : α → Bool) :
    ∀ {tbl : List α} {ex v : α} {key : String},
      tbl.Pairwise (fun a b => idOf a ≠ idOf b) →
      tbl.find? p = some ex → p v = true → key = idOf ex →
      (tbl.map fun r => if idOf r == key then v else r).find? p = some v := by
  intro tbl
  induction tbl with
  | nil => intro ex v key _ h; simp at h
  | cons a t ih =>
      intro ex v key hdist h hv hkey
      rw [List.map_cons]
      cases hpa : p a with
      | true =>
          rw [List.find?_cons, hpa] at h
          have hexa : a = ex := by injection h
          have hakey : (idOf a == key) = true := by
            simp only [beq_iff_eq]
            rw [hkey, hexa]
          rw [hakey]
          simp only [if_true]
          rw [List.find?_cons, hv]
      | false =>
          rw [List.find?_cons, hpa] at h
          have hexmem : ex ∈ t := List.mem_of_find?_eq_some h
          have hane : idOf a ≠ idOf ex := (List.pairwise_cons.mp hdist).1 ex hexmem
          have hakey : (idOf a == key) = false := by
            simp only [beq_eq_false_iff_ne, ne_eq, hkey]
            exact hane
          rw [hakey]
          simp only [Bool.false_eq_true, if_false]
          rw [List.find?_cons, hpa]
          exact ih (List.pairwise_cons.mp hdist).2 h hv hkey

/-- Replacing one row (unique key) by a row that still satisfies the
predicate keeps the number of matching rows. -/
theorem length_filter_map_replace {α : Type} (idOf : α → String) (p : α → Bool) :
    ∀ {tbl : List α} {ex v : α} {key : String},
      tbl.Pairwise (fun a b => idOf a ≠ idOf b) →
      tbl.find? p = some ex → p v = true → key = idOf ex →
      ((tbl.map fun r => if idOf r == key then v else r).filter p).length =
        (tbl.filter p).length := by
  intro tbl
  induction tbl with
  | nil => intro ex v key _ h; simp at h
  | cons a t ih =>
      intro ex v key hdist h hv hkey
      rw [List.map_cons]
      cases hpa : p a with
      | true =>
          rw [List.find?_cons, hpa] at h
          have hexa : a = ex := by injection h
          have hakey : (idOf a == key) = true := by
            simp only [beq_iff_eq]
            rw [hkey, hexa]
          rw [hakey]
          simp only [if_true]
          have htail : t.map (fun r => if idOf r == key then v else r) = t := by
            apply map_replace_eq_self
            intro r hr
            have : idOf a ≠ idOf r := (List.pairwise_cons.mp hdist).1 r hr
            rw [hkey, ← hexa]
            exact fun hc => this hc.symm
          rw [htail, List.filter_cons, List.filter_cons, hv, hpa]
          simp
      | false =>
          rw [List.find?_cons, hpa] at h
          have hexmem : ex ∈ t := List.mem_of_find?_eq_some h
          have hane : idOf a ≠ idOf ex := (List.pairwise_cons.mp hdist).1 ex hexmem
          have hakey : (idOf a == key) = false := by
            simp only [beq_eq_false_iff_ne, ne_eq, hkey]
            exact hane
          rw [hakey]
          simp only [Bool.false_eq_true, if_false]
          rw [List.filter_cons, List.filter_cons, hpa]
          simp only [Bool.false_eq_true, if_false]
          exact ih (List.pairwise_cons.mp hdist).2 h hv hkey

/-- Row replacement preserves key-uniqueness when the replacement
carries the key it replaces. -/
theorem pairwise_neq_map_replace {α : Type} (idOf : α → String) {tbl : List α}
    {v : α} {key : String} (hv : idOf v = key)
    (h : tbl.Pairwise fun a b => idOf a ≠ idOf b) :
    (tbl.map fun r => if idOf r == key then v else r).Pairwise
      (fun a b => idOf a ≠ idOf b) := by
  rw [List.pairwise_map]
  refine h.imp ?_
  intro a b hab
  rw [idOf_replace idOf v key hv a, idOf_replace idOf v key hv b]
  exact hab

/-! ### Review-upsert step lemmas for C8 -/

/-- Update path of the review upsert: a row for the incoming
`review_id` exists with a non-empty `ID` — the incoming review is saved
under that `ID`, key-uniqueness is kept, and the number of rows for the
`review_id` is unchanged. -/
theorem upsertReview_update_step {tbl : List ReviewRow} {ex : ReviewRow}
    (inc : ReviewRow) (f : String)
    (hdist : tbl.Pairwise fun a b => a.id ≠ b.id)
    (hfind : getReviewByReviewID tbl inc.reviewId = some ex)
    (hexid : ex.id ≠ "") :
    getReviewByReviewID (upsertReviewByReviewID tbl inc f) inc.reviewId =
      some { inc with id := ex.id } ∧
    (upsertReviewByReviewID tbl inc f).Pairwise (fun a b => a.id ≠ b.id) ∧
    countReviews (upsertReviewByReviewID tbl inc f) inc.reviewId =
      countReviews tbl inc.reviewId := by
  have hexmem : ex ∈ tbl := List.mem_of_find?_eq_some hfind
  have hup : upsertReviewByReviewID tbl inc f =
      tbl.map (fun r => if r.id == ({ inc with id := ex.id } : ReviewRow).id
        then { inc with id := ex.id } else r) := by
    unfold upsertReviewByReviewID
    rw [hfind]
    simp only [hexid, ne_eq, not_false_iff, if_true]
    unfold updateReview
    rw [if_pos (List.any_eq_true.mpr ⟨ex, hexmem, by simp⟩)]
  rw [hup]
  refine ⟨?_, ?_, ?_⟩
  · exact find?_map_replace ReviewRow.id _ hdist hfind (by simp) rfl
  · exact pairwise_neq_map_replace ReviewRow.id rfl hdist
  · exact length_filter_map_replace ReviewRow.id _ hdist hfind (by simp) rfl

/-- Create path of the review upsert: no row for the incoming
`review_id` exists — a row is created under the fresh UUID,
key-uniqueness is kept (the UUID is fresh), and the number of rows for
the `review_id` grows from zero to one. -/
theorem upsertReview_create_step {tbl : List ReviewRow} (inc : ReviewRow) (f : String)
    (hdist : tbl.Pairwise fun a b => a.id ≠ b.id)
    (hfind : getReviewByReviewID tbl inc.reviewId = none)
    (hincid : inc.id = "")
    (hffresh : ∀ r ∈ tbl, r.id ≠ f) :
    getReviewByReviewID (upsertReviewByReviewID tbl inc f) inc.reviewId =
      some { inc with id := f } ∧
    (upsertReviewByReviewID tbl inc f).Pairwise (fun a b => a.id ≠ b.id) ∧
    countReviews (upsertReviewByReviewID tbl inc f) inc.reviewId = 1 := by
  have hup : upsertReviewByReviewID tbl inc f = tbl ++ [{ inc with id := f }] := by
    unfold upsertReviewByReviewID
    rw [hfind]
    unfold createReview
    rw [if_pos (by simp [hincid])]
  have hzero : (tbl.filter (fun row => row.reviewId == inc.reviewId)) = [] := by
    apply List.filter_eq_nil_iff.mpr
    intro r hr
    have := List.find?_eq_none.mp hfind r hr
    simpa using this
  rw [hup]
  refine ⟨?_, ?_, ?_⟩
  · rw [getReviewByReviewID, find?_append_of_none _ _ hfind]
    simp [getReviewByReviewID]
  · apply List.pairwise_append.mpr
    refine ⟨hdist, by simp, ?_⟩
    intro a ha b hb
    simp only [List.mem_singleton] at hb
    subst hb
    exact hffresh a ha
  · rw [countReviews, List.filter_append, hzero]
    simp

/-! ### Claims C3, C4, C8, C9, C10 -/

/-- Claim C3: when `Acquire` returns false (lock held elsewhere) the
worker returns nil — `consumeMessages` acks; when the `Acquire` call
itself errs the worker returns an error — `consumeMessages` nacks with
`requeue = false`, routing the message to the dead-letter queue. -/
theorem c3_lock_contention_ack_lock_error_dlq :
    (∀ handlerResult : Except String Unit,
        disposition (processMessageWithLock (.ok false) handlerResult) =
          Disposition.ack) ∧
    (∀ (e : String) (handlerResult : Except String Unit),
        disposition (processMessageWithLock (.error e) handlerResult) =
          Disposition.nack false false) :=
  ⟨fun _ => rfl, fun _ _ => rfl⟩

/-- Counterexample to claim C4 as stated: when the repository resolution
returns the zero value, `update_hotel` does NOT ack without an upstream
call — it calls upstream with hotel id 0 (and here fails, so the
message is nacked to the DLQ); and `update_translation` does NOT treat
the empty resolution as success — it returns the error
`"lang is empty"` (nack → DLQ).  Only `update_review` behaves as the
claim says. -/
theorem c4_counterexample_hotel_calls_translation_errors :
    (processHotelMessage c4Env c4HotelMsg).2 = [0] ∧
    disposition (processHotelMessage c4Env c4HotelMsg).1 = Disposition.nack false false ∧
    processTranslationsMessage c4Env c4TranslationMsg = (.error "lang is empty", []) ∧
    disposition (processTranslationsMessage c4Env c4TranslationMsg).1 =
      Disposition.nack false false := by
  refine ⟨rfl, rfl, rfl, rfl⟩

/-- Claim C4, amended: on a zero/empty resolution of the external
identity, only `update_review` treats the job as success (ack) without
an upstream call; `update_hotel` proceeds to call upstream with the
resolved id 0; `update_translation` returns the error
`"lang is empty"` (nack → DLQ) without an upstream call. -/
theorem c4_amended_only_update_review_short_circuits :
    (∀ (env : WorkerEnv) (m : QueueMsg),
        m.messageType = messageTypeUpdateReview →
        env.cacheFound ("reviews_data_" ++ m.id) = false →
        env.hotelIdFromReviewByPk m.id = 0 →
        processReviewsMessage env m = (.ok (), [])) ∧
    (∀ (env : WorkerEnv) (m : QueueMsg),
        env.cacheFound ("hotel_data_" ++ m.id) = false →
        env.hotelIdByPk m.id = 0 →
        (processHotelMessage env m).2 = [0]) ∧
    (∀ (env : WorkerEnv) (m : QueueMsg) (d : MsgData),
        m.messageType = messageTypeUpdateTranslation →
        env.cacheFound ("translations_data_" ++ m.id) = false →
        m.data = some d →
        env.langById m.id = "" →
        processTranslationsMessage env m = (.error "lang is empty", [])) := by
  refine ⟨?_, ?_, ?_⟩
  · intro env m hty hcache hres
    simp [processReviewsMessage, hcache, hty, messageTypeUpdateReview,
      messageTypeFetchReview, hres]
  · intro env m hcache hres
    cases hup : env.upstreamOk <;>
      simp [processHotelMessage, hcache, hres, hup]
  · intro env m d hty hcache hdata hlang
    simp [processTranslationsMessage, hcache, hdata, hty, hlang,
      messageTypeUpdateTranslation, messageTypeFetchTranslation]

/-- Witness for the amended C4, at the concrete oracle and jobs. -/
theorem c4_amended_only_update_review_short_circuits_witness :
    processReviewsMessage c4Env c4ReviewMsg = (.ok (), []) ∧
    (processHotelMessage c4Env c4HotelMsg).2 = [0] ∧
    processTranslationsMessage c4Env c4TranslationMsg = (.error "lang is empty", []) :=
  ⟨c4_amended_only_update_review_short_circuits.1 c4Env c4ReviewMsg rfl rfl rfl,
   c4_amended_only_update_review_short_circuits.2.1 c4Env c4HotelMsg rfl rfl,
   c4_amended_only_update_review_short_circuits.2.2 c4Env c4TranslationMsg
     ⟨some "7", none⟩ rfl rfl rfl rfl⟩

/-- Claim C8: two successful runs that both receive a review with the
same `review_id` leave exactly one row for it, and the second run
preserves the primary-key `id` the first run left.  Hypotheses: the
table satisfies the database invariants — non-empty primary keys,
unique primary keys, at most one row per `review_id` (unique index) —
the incoming reviews carry the shared `review_id` and an empty `ID` (as
`ToReviewData` builds them), and the fresh UUID of the first run is
non-empty and unused. -/
theorem c8_review_identity_stable
    (tbl : List ReviewRow) (rid : Int) (inc1 inc2 : ReviewRow) (f1 f2 : String)
    (hids : ∀ r ∈ tbl, r.id ≠ "")
    (hdistinct : tbl.Pairwise fun a b => a.id ≠ b.id)
    (huniq : countReviews tbl rid ≤ 1)
    (hrid1 : inc1.reviewId = rid) (hrid2 : inc2.reviewId = rid)
    (hincid1 : inc1.id = "")
    (hf1 : f1 ≠ "")
    (hf1fresh : ∀ r ∈ tbl, r.id ≠ f1) :
    ∃ row1 row2 : ReviewRow,
      getReviewByReviewID (upsertReviewByReviewID tbl inc1 f1) rid = some row1 ∧
      getReviewByReviewID
        (upsertReviewByReviewID (upsertReviewByReviewID tbl inc1 f1) inc2 f2) rid =
          some row2 ∧
      row2.id = row1.id ∧
      countReviews
        (upsertReviewByReviewID (upsertReviewByReviewID tbl inc1 f1) inc2 f2) rid =
          1 := by
  subst hrid1
  cases hfind : getReviewByReviewID tbl inc1.reviewId with
  | some ex =>
      have hexmem : ex ∈ tbl := List.mem_of_find?_eq_some hfind
      have hexid : ex.id ≠ "" := hids ex hexmem
      obtain ⟨hg1, hd1, hc1⟩ := upsertReview_update_step inc1 f1 hdistinct hfind hexid
      set t1 := upsertReviewByReviewID tbl inc1 f1 with ht1
      have hfind1 : getReviewByReviewID t1 inc2.reviewId =
          some { inc1 with id := ex.id } := by rw [hrid2]; exact hg1
      have hnew1id : ({ inc1 with id := ex.id } : ReviewRow).id ≠ "" := hexid
      obtain ⟨hg2, _, hc2⟩ := upsertReview_update_step inc2 f2 hd1 hfind1 hnew1id
      refine ⟨{ inc1 with id := ex.id }, { inc2 with id := ex.id }, hg1, ?_, rfl, ?_⟩
      · rw [← hrid2]; exact hg2
      · have hcnt1 : countReviews tbl inc1.reviewId = 1 := by
          have hfind2 : tbl.find? (fun row => row.reviewId == inc1.reviewId) =
              some ex := hfind
          have hone : 1 ≤ countReviews tbl inc1.reviewId := by
            have hexp : (fun row => row.reviewId == inc1.reviewId) ex = true :=
              @List.find?_some ReviewRow (fun row => row.reviewId == inc1.reviewId)
                ex tbl hfind2
            have hmemf : ex ∈ tbl.filter (fun row => row.reviewId == inc1.reviewId) :=
              List.mem_filter.mpr ⟨hexmem, hexp⟩
            have hne : tbl.filter (fun row => row.reviewId == inc1.reviewId) ≠ [] :=
              List.ne_nil_of_mem hmemf
            rw [countReviews]
            exact List.length_pos.mpr hne
          omega
        rw [hrid2] at hc2
        rw [hc2, hc1, hcnt1]
  | none =>
      obtain ⟨hg1, hd1, hc1⟩ := upsertReview_create_step inc1 f1 hdistinct hfind
        hincid1 hf1fresh
      set t1 := upsertReviewByReviewID tbl inc1 f1 with ht1
      have hfind1 : getReviewByReviewID t1 inc2.reviewId =
          some { inc1 with id := f1 } := by rw [hrid2]; exact hg1
      have hnew1id : ({ inc1 with id := f1 } : ReviewRow).id ≠ "" := hf1
      obtain ⟨hg2, _, hc2⟩ := upsertReview_update_step inc2 f2 hd1 hfind1 hnew1id
      refine ⟨{ inc1 with id := f1 }, { inc2 with id := f1 }, hg1, ?_, rfl, ?_⟩
      · rw [← hrid2]; exact hg2
      · rw [hrid2] at hc2
        rw [hc2, hc1]

/-- Witness for C8 on the empty table: the first run creates the row
under the fresh UUID `"uuid-1"`, the second run updates it in place —
the `id` is preserved and exactly one row remains. -/
theorem c8_review_identity_stable_witness :
    ∃ row1 row2 : ReviewRow,
      getReviewByReviewID
          (upsertReviewByReviewID [] ⟨"", 42, 7, "p1"⟩ "uuid-1") 42 = some row1 ∧
      getReviewByReviewID
        (upsertReviewByReviewID
          (upsertReviewByReviewID [] ⟨"", 42, 7, "p1"⟩ "uuid-1")
          ⟨"", 42, 7, "p2"⟩ "uuid-2") 42 = some row2 ∧
      row2.id = row1.id ∧
      countReviews
        (upsertReviewByReviewID
          (upsertReviewByReviewID [] ⟨"", 42, 7, "p1"⟩ "uuid-1")
          ⟨"", 42, 7, "p2"⟩ "uuid-2") 42 = 1 :=
  c8_review_identity_stable [] 42 ⟨"", 42, 7, "p1"⟩ ⟨"", 42, 7, "p2"⟩ "uuid-1" "uuid-2"
    (by intro r hr; simp at hr) (by simp) (by simp [countReviews]) rfl rfl rfl
    (by decide) (by intro r hr; simp at hr)

/-- Claim C9: both `BeforeUpdate` hooks force `status` back to
`"active"` on any update performed while `deleted_at` is unset,
whatever status the record carried. -/
theorem c9_status_forced_active_on_update :
    (∀ (now : Int) (h : EntityRow), h.deletedAtSet = false →
        (hotelDataBeforeUpdate now h).status = "active") ∧
    (∀ (now : Int) (t : EntityRow), t.deletedAtSet = false →
        (hotelTranslationBeforeUpdate now t).status = "active") := by
  constructor <;>
    · intro now r hr
      simp [hotelDataBeforeUpdate, hotelTranslationBeforeUpdate, hr]

/-- Witness for C9 at `c9Row`. -/
theorem c9_status_forced_active_on_update_witness :
    (hotelDataBeforeUpdate 200 c9Row).status = "active" ∧
    (hotelTranslationBeforeUpdate 200 c9Row).status = "active" :=
  ⟨c9_status_forced_active_on_update.1 200 c9Row rfl,
   c9_status_forced_active_on_update.2 200 c9Row rfl⟩

/-- Counterexample to claim C10 as stated: upserting `c10Incoming` over
`c10Existing` does keep `id` and `created_at`, but the stored row's
status is `"active"`, not the incoming `"inactive"` (the
`BeforeUpdate` hook overrides it), so not all remaining fields are
replaced by the incoming record. -/
theorem c10_counterexample_status_not_taken_from_incoming :
    (findHotelByHotelId (upsertHotel 200 "uuid-new" [c10Existing] c10Incoming) 7).map
        EntityRow.status = some "active" ∧
    c10Incoming.status = "inactive" ∧
    (findHotelByHotelId (upsertHotel 200 "uuid-new" [c10Existing] c10Incoming) 7).map
        EntityRow.status ≠ some c10Incoming.status := by
  refine ⟨rfl, rfl, ?_⟩
  intro h
  simp at h
  exact absurd h (by decide)

/-- Claim C10, amended: on a hotel upsert over an existing `hotel_id`
(resp. a translation upsert over an existing `(hotel_id, lang)`), the
stored row keeps the previous primary-key `id` and `created_at`, and
takes every other field from the incoming record except the two the
`BeforeUpdate` hook sets: `updated_at` becomes the save time, and
`status` is forced to `"active"` when the incoming `deleted_at` is
unset (otherwise kept from the incoming record). -/
theorem c10_amended_upsert_preserves_id_createdAt_hook_fields :
    (∀ (now : Int) (freshId : String) (tbl : List EntityRow) (hotel ex : EntityRow),
        tbl.Pairwise (fun a b => a.id ≠ b.id) →
        findHotelByHotelId tbl hotel.hotelId = some ex →
        findHotelByHotelId (upsertHotel now freshId tbl hotel) hotel.hotelId =
          some { hotel with
                  id := ex.id
                  createdAt := ex.createdAt
                  updatedAt := now
                  status := if hotel.deletedAtSet then hotel.status else "active" }) ∧
    (∀ (now : Int) (freshId : String) (tbl : List EntityRow)
        (translation ex : EntityRow),
        tbl.Pairwise (fun a b => a.id ≠ b.id) →
        findTranslationByKey tbl translation.hotelId translation.lang = some ex →
        findTranslationByKey (upsertHotelTranslations now freshId tbl translation)
            translation.hotelId translation.lang =
          some { translation with
                  id := ex.id
                  createdAt := ex.createdAt
                  updatedAt := now
                  status := if translation.deletedAtSet then translation.status
                            else "active" }) := by
  constructor
  · intro now freshId tbl hotel ex hdist hfind
    have hexmem : ex ∈ tbl := List.mem_of_find?_eq_some hfind
    have hstep : upsertHotel now freshId tbl hotel =
        saveEntity (hotelDataBeforeUpdate now) tbl
          { hotel with id := ex.id, createdAt := ex.createdAt } := by
      unfold upsertHotel
      rw [hfind]
    rw [hstep]
    unfold saveEntity
    rw [if_pos (List.any_eq_true.mpr ⟨ex, hexmem, by simp⟩)]
    exact find?_map_replace EntityRow.id _ hdist hfind
      (by simp [hotelDataBeforeUpdate]) rfl
  · intro now freshId tbl translation ex hdist hfind
    have hexmem : ex ∈ tbl := List.mem_of_find?_eq_some hfind
    have hstep : upsertHotelTranslations now freshId tbl translation =
        saveEntity (hotelTranslationBeforeUpdate now) tbl
          { translation with id := ex.id, createdAt := ex.createdAt } := by
      unfold upsertHotelTranslations
      rw [hfind]
    rw [hstep]
    unfold saveEntity
    rw [if_pos (List.any_eq_true.mpr ⟨ex, hexmem, by simp⟩)]
    exact find?_map_replace EntityRow.id _ hdist hfind
      (by simp [hotelTranslationBeforeUpdate]) rfl

/-- Witness for the amended C10: concrete hotel and translation
upserts over one-row tables. -/
theorem c10_amended_upsert_preserves_id_createdAt_hook_fields_witness :
    findHotelByHotelId (upsertHotel 200 "uuid-new" [c10Existing] c10Incoming)
        c10Incoming.hotelId =
      some { c10Incoming with
              id := c10Existing.id
              createdAt := c10Existing.createdAt
              updatedAt := 200
              status := if c10Incoming.deletedAtSet then c10Incoming.status
                        else "active" } ∧
    findTranslationByKey
        (upsertHotelTranslations 200 "uuid-new" [c10TransExisting] c10TransIncoming)
        c10TransIncoming.hotelId c10TransIncoming.lang =
      some { c10TransIncoming with
              id := c10TransExisting.id
              createdAt := c10TransExisting.createdAt
              updatedAt := 200
              status := if c10TransIncoming.deletedAtSet then c10TransIncoming.status
                        else "active" } :=
  ⟨c10_amended_upsert_preserves_id_createdAt_hook_fields.1 200 "uuid-new"
      [c10Existing] c10Incoming c10Existing (by simp) rfl,
   c10_amended_upsert_preserves_id_createdAt_hook_fields.2 200 "uuid-new"
      [c10TransExisting] c10TransIncoming c10TransExisting (by simp) rfl⟩

end HotelSys
